import Mathlib

/-!
Verification development for the WhiteNote background job-pipeline subsystem
and the frontend favorites cache logic.

The frontend definitions (query cache, optimistic updaters) are shallow
embeddings of `frontend/src/hooks/use-favorites.ts` and the TypeScript
interfaces in `frontend/src/lib/api.ts`.

The job-pipeline subsystem (Job Record Store, Queue Backend, Worker Pool,
Pipeline Orchestrator, Scheduler, Retry Policy) has no implementation in this
repository: it is specified in the design documents only. Definitions for it
are therefore modelled from the specification text and are marked as such in
their doc comments.
-/

/-- Modelled from the spec: `status`: one of
{pending, leased, running, completed, failed, dead}. The pipeline
implementation is absent from the repository; this enum follows §3 of the
specification. -/
inductive JobStatus where
  | pending
  | leased
  | running
  | completed
  | failed
  | dead
deriving DecidableEq, Repr

/-- Modelled from the spec: `job_type`: enum
{download_pdf, generate_summary, generate_comic, fetch_arxiv}. -/
inductive JobType where
  | download_pdf
  | generate_summary
  | generate_comic
  | fetch_arxiv
deriving DecidableEq, Repr

/-- Modelled from the spec: `queue_name`: one of {summary, comic, default},
determining dispatch priority (summary before comic before default). -/
inductive QueueName where
  | summary
  | comic
  | default
deriving DecidableEq, Repr

/-- Modelled from the spec: failure taxonomy used by the Retry/Backoff policy,
`transient` (retryable) versus `permanent` (non-retryable). The
`infrastructure` kind is not attributed to any job and plays no role in the
per-job retry decision. -/
inductive FailureKind where
  | transient
  | permanent
deriving DecidableEq, Repr

/-- Modelled from the spec: outcome of the pure retry decision — either retry
after a backoff delay, or abandon the job as dead. -/
inductive RetryDecision where
  | retry (delay : Nat)
  | dead
deriving DecidableEq, Repr

/-- Modelled from the spec: exponential backoff, base × 2^attempts, capped at
a maximum. Exact constants are configuration, so `base` and `cap` are
parameters. -/
def backoffDelay (base cap attempts : Nat) : Nat :=
  min (base * 2 ^ attempts) cap

/-- Modelled from the spec, §4.5: the retry decision is a pure function of
(attempts, max_attempts, failure_kind). Transient failures retry with
exponential backoff until `attempts == max_attempts`, then dead; permanent
failures are immediately dead regardless of remaining attempts. -/
def retryDecision (attempts max_attempts : Nat) (k : FailureKind)
    (base cap : Nat) : RetryDecision :=
  match k with
  | .permanent => .dead
  | .transient =>
    if attempts < max_attempts then .retry (backoffDelay base cap attempts)
    else .dead

/-- Modelled from the spec, §3: a JobRecord row. Timestamps are omitted (no
claim depends on them). `lastFailed` is a ghost field recording whether the
most recent execution attempt failed, used to state the §8 property
"once attempts == max_attempts and the last attempt failed, status is dead".
`attempts` counts execution attempts so far (§3), so a failed execution
increments it before the retry decision is taken — this is the reading under
which Scenario B (three transient failures with max_attempts = 3 end in dead)
holds. -/
structure JobRecord where
  id : Nat
  job_type : JobType
  subject_id : Nat
  queue_name : QueueName
  status : JobStatus
  attempts : Nat
  max_attempts : Nat
  last_error : Option String
  lastFailed : Bool
deriving DecidableEq, Repr

/-- Modelled from the spec: a freshly enqueued JobRecord — status pending,
zero attempts so far, no failure recorded. -/
def newJob (i : Nat) (ty : JobType) (subj : Nat) (q : QueueName)
    (m : Nat) : JobRecord :=
  { id := i, job_type := ty, subject_id := subj, queue_name := q,
    status := .pending, attempts := 0, max_attempts := m,
    last_error := none, lastFailed := false }

/-- Modelled from the spec, §4.3 and §4.5: handling of a handler failure for
the running job `j`. The failed execution is counted (`attempts + 1`) and the
pure retry decision is applied to the updated count: a transient failure that
still has attempts left rewrites the record to `status = pending` and
re-enqueues it on the same queue (the second component); otherwise the record
becomes `dead` and nothing is re-enqueued. -/
def handleFailure (j : JobRecord) (k : FailureKind) (msg : String) :
    JobRecord × Option QueueName :=
  let a := j.attempts + 1
  match k with
  | .permanent =>
    ({ j with
        status := .dead, attempts := a, lastFailed := true,
        last_error := some msg }, none)
  | .transient =>
    if a < j.max_attempts then
      ({ j with
          status := .pending, attempts := a, lastFailed := true,
          last_error := some msg }, some j.queue_name)
    else
      ({ j with
          status := .dead, attempts := a, lastFailed := true,
          last_error := some msg }, none)

/-- Modelled from the spec, §4.1: the optional extra fields a `transition`
call may write together with the status change (attempts counter and last
error message; timestamps are omitted). `none` means "leave unchanged". -/
structure UpdateFields where
  attempts : Option Nat
  last_error : Option (Option String)
deriving DecidableEq, Repr

/-- Modelled from the spec, §4.1: apply the optional field updates of a
successful `transition` to a record. -/
def applyFields (f : UpdateFields) (j : JobRecord) : JobRecord :=
  { j with
      attempts := f.attempts.getD j.attempts,
      last_error := f.last_error.getD j.last_error }

/-- Modelled from the spec, §4.1: the Job Record Store is the durable table
of job records. -/
abbrev Store := List JobRecord

/-- Modelled from the spec, §4.1: `transition(id, fromStatus, toStatus,
fields) -> ok | conflict` is a compare-and-swap on `status`: it fails
(returns conflict, first component `false`, and performs no mutation) when
the stored status does not match `fromStatus`; only on a match is the record
rewritten to `toStatus` with the extra fields applied. -/
def transition (st : Store) (i : Nat) (fromS toS : JobStatus)
    (f : UpdateFields) : Bool × Store :=
  match st.find? (fun j => j.id == i) with
  | none => (false, st)
  | some j =>
    if j.status = fromS then
      (true, st.map (fun j2 =>
        if j2.id == i then applyFields f { j2 with status := toS } else j2))
    else
      (false, st)

/-- Modelled from the spec, §3 and §4.3: the per-job lifecycle steps. A
pending job can be leased; a leased job is marked running by the worker that
holds the lease; a running handler either succeeds (completed) or fails, in
which case the worker writes the retry-decision outcome (`handleFailure`);
an abandoned lease (crash / expiry) makes the job pending again for
re-delivery; `RetryJob` resets a dead job to pending with zero attempts. -/
inductive JobStep : JobRecord → JobRecord → Prop where
  | lease (j : JobRecord) (h : j.status = .pending) :
      JobStep j { j with status := .leased }
  | start (j : JobRecord) (h : j.status = .leased) :
      JobStep j { j with status := .running }
  | succeed (j : JobRecord) (h : j.status = .running) :
      JobStep j { j with status := .completed, lastFailed := false }
  | fail (j : JobRecord) (k : FailureKind) (msg : String)
      (h : j.status = .running) :
      JobStep j (handleFailure j k msg).1
  | expire (j : JobRecord) (h : j.status = .leased ∨ j.status = .running) :
      JobStep j { j with status := .pending }
  | retryJob (j : JobRecord) (h : j.status = .dead) :
      JobStep j { j with status := .pending, attempts := 0 }

/-- Modelled from the spec: a JobRecord is reachable when it is freshly
enqueued (with a positive `max_attempts` ceiling, the spec default being 3)
or obtained from a reachable record by one lifecycle step. -/
inductive ReachableJob : JobRecord → Prop where
  | init (i : Nat) (ty : JobType) (subj : Nat) (q : QueueName) (m : Nat)
      (h : 1 ≤ m) : ReachableJob (newJob i ty subj q m)
  | step (j j' : JobRecord) (h : ReachableJob j) (hs : JobStep j j') :
      ReachableJob j'

/-- Modelled from the spec, §4.2: the Queue Backend holds, per named queue,
the ordered list of enqueued job ids. -/
abbrev QueueState := QueueName → List Nat

/-- Modelled from the spec, §4.2: the caller-specified priority order in
which `lease` scans the queues — summary before comic before default. -/
def priorityOrder : List QueueName :=
  [QueueName.summary, QueueName.comic, QueueName.default]

/-- Modelled from the spec, §4.2: the scan performed by one `lease` poll —
walk the queues in the given order and take the first job of the first
non-empty queue; `none` when every queue is empty (the blocking wait then
polls again, which no claim depends on). The lease duration does not affect
which queue is drained, so it is not a parameter of the scan. -/
def leaseScan (order : List QueueName) (qs : QueueState) :
    Option (QueueName × Nat) :=
  match order with
  | [] => none
  | q :: rest =>
    match qs q with
    | [] => leaseScan rest qs
    | i :: _ => some (q, i)

/-- Modelled from the spec, §4.2: `lease` with the canonical priority order
summary before comic before default. -/
def lease (qs : QueueState) : Option (QueueName × Nat) :=
  leaseScan priorityOrder qs

/-- Modelled from the spec, §4.6: scheduler state for one
(pipeline_type, scheduled_time_bucket) key — the holder of the distributed
mutual-exclusion lock for that tick, if any, and the number of `fetch_arxiv`
PipelineRuns created for that tick. -/
structure SchedTickState where
  lockHolder : Option Nat
  runsCreated : Nat
deriving DecidableEq, Repr

/-- Modelled from the spec, §4.6: one scheduler replica ticking at the
scheduled time — it tries to acquire the lock for the
(pipeline_type, scheduled_time_bucket) key; only on acquisition does it
enqueue the ingestion pipeline (creating one PipelineRun), otherwise it
observes the lock held and skips. -/
def tickReplica (s : SchedTickState) (replica : Nat) : SchedTickState :=
  match s.lockHolder with
  | some _ => s
  | none => { lockHolder := some replica, runsCreated := s.runsCreated + 1 }

/-- Modelled from the spec, §4.6: an arbitrary number of replicas ticking at
the same scheduled time bucket, in some serialization order (lock
acquisition is atomic, so any interleaving is a serialization). -/
def runTick (s : SchedTickState) (replicas : List Nat) : SchedTickState :=
  replicas.foldl tickReplica s

/-- Modelled from the spec, §6: the Subject Status Projection value for one
job type as the Status read API exposes it (`string | null` in the
`PaperDetail` schema): derived from the latest JobRecord status per
(subject_id, job_type), `none` when no job exists; a leased job has not
started running, so it is still surfaced as pending; `dead` is surfaced as
failed so the UI can prompt a manual retry (§7). -/
def projectionValue : Option JobStatus → Option String
  | Option.none => none
  | some .pending => some ("pending")
  | some .leased => some ("pending")
  | some .running => some ("running")
  | some .completed => some ("completed")
  | some .failed => some ("failed")
  | some .dead => some ("failed")

/-- Modelled from the spec, §6: the set of values the Status read API may
expose for `summary_job_status` / `comic_job_status`. -/
def projectionAllowed : List (Option String) :=
  [none, some ("pending"), some ("running"), some ("completed"),
   some ("failed")]

/-- Modelled from the spec, §3: the Subject Status Projection fields embedded
in a subject's record. -/
structure SubjectStatusProjection where
  summary_job_status : Option String
  comic_job_status : Option String
deriving DecidableEq, Repr

/-- Modelled from the spec, §3: the Orchestrator updates the projection from
the latest JobRecord status for the given job type; job types that have no
projection field leave the projection unchanged. -/
def updateProjection (p : SubjectStatusProjection) (ty : JobType)
    (s : Option JobStatus) : SubjectStatusProjection :=
  match ty with
  | .generate_summary => { p with summary_job_status := projectionValue s }
  | .generate_comic => { p with comic_job_status := projectionValue s }
  | _ => p

/-- Modelled from the spec, §6: both projection fields lie in the allowed
value set. -/
def projectionOk (p : SubjectStatusProjection) : Prop :=
  p.summary_job_status ∈ projectionAllowed ∧
  p.comic_job_status ∈ projectionAllowed

/-- Modelled from the spec, §3: `status` only advances forward through
pending → leased → running → (completed | failed → pending-retry | dead);
a leased or running job whose lease expires becomes pending again. The
worker writes the retry decision directly (§4.3), so the transient `failed`
sub-state is not materialized between steps. -/
inductive StatusStep : JobStatus → JobStatus → Prop where
  | lease : StatusStep .pending .leased
  | start : StatusStep .leased .running
  | complete : StatusStep .running .completed
  | retry : StatusStep .running .pending
  | die : StatusStep .running .dead
  | expireLeased : StatusStep .leased .pending
  | expireRunning : StatusStep .running .pending

/-- Modelled from the spec, §8: a status counted by the dedupe invariant —
pending, leased or running. -/
def nonTerminalB (s : JobStatus) : Bool :=
  s == .pending || s == .leased || s == .running

/-- Modelled from the spec, §8: does this JobRecord count as an in-flight
record for the (subject_id, job_type) pair? -/
def inFlightPred (subj : Nat) (ty : JobType) (j : JobRecord) : Bool :=
  j.subject_id == subj && j.job_type == ty && nonTerminalB j.status

/-- Modelled from the spec, §4.4: the Orchestrator's check of the Subject
Status Projection before enqueuing — is some job for this
(subject_id, job_type) pair already in flight? -/
def hasInFlight (st : List JobRecord) (subj : Nat) (ty : JobType) : Bool :=
  st.any (inFlightPred subj ty)

/-- Modelled from the spec, §4.4: a pipeline trigger asking the Orchestrator
to enqueue a step of type `ty` for subject `subj` — a no-op when a job for
the pair is already in flight, otherwise a fresh pending JobRecord is
appended. -/
def triggerEnqueue (st : List JobRecord) (i subj : Nat) (ty : JobType)
    (q : QueueName) (m : Nat) : List JobRecord :=
  if hasInFlight st subj ty then st else st ++ [newJob i ty subj q m]

/-- Modelled from the spec, §4.4 and §3: system steps over the job table —
either a pipeline trigger (guarded by the dedupe check) or one job advancing
along the status lifecycle, keeping its subject and job type. The manual
`RetryJob` reset is an operator action outside the Orchestrator's own
operation and is not part of this system. -/
inductive SysStep : List JobRecord → List JobRecord → Prop where
  | trigger (st : List JobRecord) (i subj : Nat) (ty : JobType)
      (q : QueueName) (m : Nat) :
      SysStep st (triggerEnqueue st i subj ty q m)
  | advance (st : List JobRecord) (n : Nat) (hn : n < st.length)
      (j' : JobRecord)
      (hsub : j'.subject_id = (st.get ⟨n, hn⟩).subject_id)
      (hty : j'.job_type = (st.get ⟨n, hn⟩).job_type)
      (hs : StatusStep (st.get ⟨n, hn⟩).status j'.status) :
      SysStep st (st.set n j')

/-- Modelled from the spec: job tables reachable from the empty table by
system steps. -/
inductive SysReachable : List JobRecord → Prop where
  | init : SysReachable []
  | step (st st' : List JobRecord) (h : SysReachable st)
      (hs : SysStep st st') : SysReachable st'

/-- Modelled from the spec, §8: the number of in-flight JobRecords for one
(subject_id, job_type) pair. -/
def inFlightCount (st : List JobRecord) (subj : Nat) (ty : JobType) : Nat :=
  st.countP (inFlightPred subj ty)

/-- Modelled from the spec, §4.4: the state of one favorite pipeline
`chain(download_pdf, group(generate_summary, generate_comic))` for one
subject: the status of the download_pdf JobRecord, and the statuses of the
generate_summary / generate_comic JobRecords, `none` while not yet
enqueued. -/
structure FavPipelineState where
  dl : JobStatus
  summaryJob : Option JobStatus
  comicJob : Option JobStatus
deriving DecidableEq, Repr

/-- Modelled from the spec, §4.4: on trigger the Orchestrator enqueues the
first chain step — download_pdf pending, neither group member enqueued. -/
def favInitial : FavPipelineState :=
  { dl := .pending, summaryJob := none, comicJob := none }

/-- Modelled from the spec, §4.4: steps of the favorite pipeline. The
Orchestrator is driven by step completion events, so the completion of
download_pdf and the enqueue of the group members is one event
(`dlComplete`); every other download_pdf advance leaves the group
un-enqueued, and the two group members advance independently of each
other. -/
inductive FavStep : FavPipelineState → FavPipelineState → Prop where
  | dlAdvance (s : FavPipelineState) (y : JobStatus)
      (h : StatusStep s.dl y) (hy : y ≠ .completed) :
      FavStep s { s with dl := y }
  | dlComplete (s : FavPipelineState) (h : s.dl = .running) :
      FavStep s { dl := .completed, summaryJob := some .pending,
                  comicJob := some .pending }
  | sumAdvance (s : FavPipelineState) (x y : JobStatus)
      (hx : s.summaryJob = some x) (h : StatusStep x y) :
      FavStep s { s with summaryJob := some y }
  | comAdvance (s : FavPipelineState) (x y : JobStatus)
      (hx : s.comicJob = some x) (h : StatusStep x y) :
      FavStep s { s with comicJob := some y }

/-- Modelled from the spec: favorite-pipeline states reachable from the
trigger. -/
inductive FavReachable : FavPipelineState → Prop where
  | init : FavReachable favInitial
  | step (s s' : FavPipelineState) (h : FavReachable s)
      (hs : FavStep s s') : FavReachable s'

/-- Pagination metadata of a paper-list response
(`frontend/src/lib/api.ts`, `PaginationMeta`). -/
structure PaginationMeta where
  page : Nat
  size : Nat
  total : Nat
  total_pages : Nat
deriving DecidableEq, Repr

/-- A paper card as cached by the frontend
(`frontend/src/lib/api.ts`, `PaperCard`); only the fields the favorites
hooks read or write are carried, the rest is untouched spread copying. -/
structure PaperCard where
  id : String
  title : String
  favorite_folders : List String
  is_disliked : Bool
deriving DecidableEq, Repr

/-- A cached paper-list query result
(`frontend/src/lib/api.ts`, `PaperListResponse`). -/
structure PaperListResponse where
  data : List PaperCard
  pagination : PaginationMeta
deriving DecidableEq, Repr

/-- The `action` argument of `useToggleFavorite`
(`frontend/src/hooks/use-favorites.ts`). -/
inductive FavAction where
  | add
  | remove
deriving DecidableEq, Repr

/-- The `action` argument of `useToggleDislike`
(`frontend/src/hooks/use-favorites.ts`). -/
inductive DislikeAction where
  | dislike
  | undislike
deriving DecidableEq, Repr

/-- The folder-list edit inside `useToggleFavorite.onMutate`: on "add" the
folder is pushed only when not already included; on "remove" the first
occurrence is spliced out (`indexOf` + `splice(idx, 1)`). -/
def toggleFolders (action : FavAction) (folder : String)
    (folders : List String) : List String :=
  match action with
  | .add => if folder ∈ folders then folders else folders ++ [folder]
  | .remove => folders.erase folder

/-- The per-card optimistic update of `useToggleFavorite.onMutate`: cards
with a different id are returned unchanged, the matching card gets the
edited folder list. -/
def favoriteCardUpdate (paperId folder : String) (action : FavAction)
    (p : PaperCard) : PaperCard :=
  if p.id = paperId then
    { p with
        favorite_folders := toggleFolders action folder p.favorite_folders }
  else p

/-- The cache updater passed to `setQueriesData` by
`useToggleFavorite.onMutate`: `undefined` query data is returned as is,
otherwise every card of the page is mapped through the per-card update. -/
def toggleFavoriteUpdater (paperId folder : String) (action : FavAction)
    (old : Option PaperListResponse) : Option PaperListResponse :=
  match old with
  | none => none
  | some old =>
    some { old with
            data := old.data.map (favoriteCardUpdate paperId folder action) }

/-- The cache updater of `useToggleDislike.onMutate`: a dislike removes the
card from the list and decrements the total (`Math.max(0, total - 1)`, which
is truncated subtraction on `Nat`); an undislike clears the `is_disliked`
flag of the matching card. -/
def toggleDislikeUpdater (paperId : String) (action : DislikeAction)
    (old : Option PaperListResponse) : Option PaperListResponse :=
  match old with
  | none => none
  | some old =>
    match action with
    | .dislike =>
      some { old with
              data := old.data.filter (fun p => !(p.id == paperId)),
              pagination := { old.pagination with
                               total := old.pagination.total - 1 } }
    | .undislike =>
      some { old with
              data := old.data.map (fun p =>
                if p.id = paperId then { p with is_disliked := false }
                else p) }

/-- An opaque identifier standing for a react-query array key. -/
abbrev QueryKey := Nat

/-- The slice of the react-query cache the favorites hooks touch: one entry
per query key, with the (possibly absent) cached `PaperListResponse`. Keys
in the real cache are unique. -/
abbrev QueryCache := List (QueryKey × Option PaperListResponse)

/-- `queryClient.getQueriesData({ queryKey: ["papers"] })`: the entries of
every query whose key matches the papers prefix, as (key, data) pairs; the
matching predicate is abstracted as `isPapers`. -/
def getQueriesData (isPapers : QueryKey → Bool) (c : QueryCache) :
    QueryCache :=
  c.filter (fun e => isPapers e.1)

/-- `queryClient.setQueriesData({ queryKey: ["papers"] }, f)`: apply the
updater to the data of every matching query, leaving other queries
untouched. -/
def setQueriesData (isPapers : QueryKey → Bool)
    (f : Option PaperListResponse → Option PaperListResponse)
    (c : QueryCache) : QueryCache :=
  c.map (fun e => if isPapers e.1 then (e.1, f e.2) else e)

/-- `queryClient.setQueryData(key, data)`: overwrite the data of the query
with that exact key. -/
def setQueryData (k : QueryKey) (v : Option PaperListResponse)
    (c : QueryCache) : QueryCache :=
  c.map (fun e => if e.1 = k then (e.1, v) else e)

/-- The `onError` handler of both hooks: for each (key, data) snapshot entry
captured in `onMutate`, `qc.setQueryData(key, data)` restores that query. -/
def restorePreviousQueries (snap : QueryCache) (c : QueryCache) :
    QueryCache :=
  snap.foldl (fun acc kv => setQueryData kv.1 kv.2 acc) c

/-- The keys of a cache slice. -/
def cacheKeys (c : QueryCache) : List QueryKey :=
  c.map (fun e => e.1)

/-- Modelled from the spec: the strengthened per-job invariant closed under
the lifecycle steps — a positive retry ceiling, the attempt counter bounded
by it and strictly below it while the job is in a retryable (non-terminal)
path, and a record whose most recent attempt failed after exhausting the
ceiling being dead. -/
def JobInv (j : JobRecord) : Prop :=
  1 ≤ j.max_attempts ∧
  j.attempts ≤ j.max_attempts ∧
  (nonTerminalB j.status = true → j.attempts < j.max_attempts) ∧
  (j.lastFailed = true → j.attempts = j.max_attempts →
    j.status = JobStatus.dead)

/-- Modelled from the spec: the invariant tying the favorite chain order —
neither group member is enqueued before download_pdf completes, and once it
completes both are enqueued. -/
def FavChainInv (s : FavPipelineState) : Prop :=
  ((s.summaryJob ≠ none ∨ s.comicJob ≠ none) →
    s.dl = JobStatus.completed) ∧
  (s.dl = JobStatus.completed →
    s.summaryJob ≠ none ∧ s.comicJob ≠ none)

/-- A one-record store used to witness the CAS contract. -/
def demoStore : Store := [newJob 1 JobType.download_pdf 7 QueueName.default 3]

/-- A concrete queue snapshot: summary empty, comic and default
non-empty. -/
def demoQueues : QueueState := fun q =>
  match q with
  | QueueName.summary => []
  | QueueName.comic => [5]
  | QueueName.default => [7]

/-- A job that is leased on its first delivery: one lifecycle step after
creation. -/
def demoLeasedJob : JobRecord :=
  { newJob 1 JobType.generate_summary 1 QueueName.summary 1 with
      status := JobStatus.leased }

/-- The same job marked running by the worker holding the lease. -/
def demoRunningJob : JobRecord :=
  { demoLeasedJob with status := JobStatus.running }

/-- The job after its only allowed attempt fails transiently: the retry
ceiling of 1 is exhausted, so the record is dead. -/
def demoDeadJob : JobRecord :=
  (handleFailure demoRunningJob FailureKind.transient ("net timeout")).1

/-- A favorite pipeline in which the summary branch finished first while the
comic branch is still pending. -/
def favSummaryFirst : FavPipelineState :=
  { dl := JobStatus.completed, summaryJob := some JobStatus.completed,
    comicJob := some JobStatus.pending }

/-- A favorite pipeline in which the comic branch finished first while the
summary branch is still pending. -/
def favComicFirst : FavPipelineState :=
  { dl := JobStatus.completed, summaryJob := some JobStatus.pending,
    comicJob := some JobStatus.completed }

/-- A two-query cache slice used to witness the rollback property. -/
def demoCache : QueryCache :=
  [(0, none),
   (1, some { data := [{ id := ("p1"), title := ("t"),
                         favorite_folders := [], is_disliked := false }],
              pagination := { page := 1, size := 20, total := 1,
                              total_pages := 1 } })]

/-- The papers-key predicate of the demo cache: both entries match, as every
query under the ["papers"] prefix does. -/
def demoIsPapers : QueryKey → Bool := fun _ => true

/-- A one-job table obtained by triggering download_pdf for subject 7 on the
empty table. -/
def demoTable : List JobRecord :=
  triggerEnqueue [] 1 7 JobType.download_pdf QueueName.default 3

/-- C4: the retry decision is a pure function of
(attempts, max_attempts, failure_kind): a transient failure with
attempts < max_attempts yields a retry with exponential backoff delay
base × 2^attempts capped at `cap`, and the failed record is rewritten to
status pending with the attempt counted and re-enqueued on the same queue;
a transient failure with attempts == max_attempts yields dead; a permanent
failure yields dead immediately regardless of remaining attempts. -/
theorem retry_policy_pure_function :
    (∀ a m base cap : Nat, a < m →
      retryDecision a m FailureKind.transient base cap =
        RetryDecision.retry (min (base * 2 ^ a) cap)) ∧
    (∀ a base cap : Nat,
      retryDecision a a FailureKind.transient base cap =
        RetryDecision.dead) ∧
    (∀ a m base cap : Nat,
      retryDecision a m FailureKind.permanent base cap =
        RetryDecision.dead) ∧
    (∀ (j : JobRecord) (msg : String), j.attempts + 1 < j.max_attempts →
      handleFailure j FailureKind.transient msg =
        ({ j with
            status := .pending, attempts := j.attempts + 1,
            lastFailed := true, last_error := some msg },
         some j.queue_name)) ∧
    (∀ (j : JobRecord) (msg : String), j.attempts + 1 = j.max_attempts →
      handleFailure j FailureKind.transient msg =
        ({ j with
            status := .dead, attempts := j.attempts + 1,
            lastFailed := true, last_error := some msg }, none)) ∧
    (∀ (j : JobRecord) (msg : String),
      handleFailure j FailureKind.permanent msg =
        ({ j with
            status := .dead, attempts := j.attempts + 1,
            lastFailed := true, last_error := some msg }, none)) := by
  refine ⟨?_, ?_, ?_, ?_, ?_, ?_⟩
  · intro a m base cap h
    simp [retryDecision, backoffDelay, h]
  · intro a base cap
    simp [retryDecision]
  · intro a m base cap
    simp [retryDecision]
  · intro j msg h
    simp [handleFailure, h]
  · intro j msg h
    simp [handleFailure, h]
  · intro j msg
    simp [handleFailure]

/-- Witness for C4 at concrete inputs: with base 30, cap 3600 and
max_attempts 3, a transient failure after attempt 1 retries with delay 60,
exhausting the attempts kills the job, and a permanent failure kills it
immediately. -/
theorem retry_policy_pure_function_witness :
    retryDecision 1 3 FailureKind.transient 30 3600 =
      RetryDecision.retry 60 ∧
    retryDecision 3 3 FailureKind.transient 30 3600 = RetryDecision.dead ∧
    retryDecision 0 3 FailureKind.permanent 30 3600 = RetryDecision.dead :=
  ⟨retry_policy_pure_function.1 1 3 30 3600 (by decide),
   retry_policy_pure_function.2.1 3 30 3600,
   retry_policy_pure_function.2.2.1 0 3 30 3600⟩

/-- C5: `transition` is a compare-and-swap on `status`: whenever the stored
status of the job differs from `fromStatus` (or no record has the id), the
call returns conflict and leaves the store completely unchanged; the store
is mutated only when the stored status equals `fromStatus`. -/
theorem transition_cas :
    (∀ (st : Store) (i : Nat) (fromS toS : JobStatus) (f : UpdateFields)
        (j : JobRecord),
      st.find? (fun j2 => j2.id == i) = some j → j.status ≠ fromS →
      transition st i fromS toS f = (false, st)) ∧
    (∀ (st : Store) (i : Nat) (fromS toS : JobStatus) (f : UpdateFields),
      st.find? (fun j2 => j2.id == i) = none →
      transition st i fromS toS f = (false, st)) ∧
    (∀ (st : Store) (i : Nat) (fromS toS : JobStatus) (f : UpdateFields),
      (transition st i fromS toS f).2 ≠ st →
      ∃ j, st.find? (fun j2 => j2.id == i) = some j ∧
        j.status = fromS) := by
  refine ⟨?_, ?_, ?_⟩
  · intro st i fromS toS f j hfind hne
    simp [transition, hfind, hne]
  · intro st i fromS toS f hfind
    simp [transition, hfind]
  · intro st i fromS toS f hmut
    by_cases hfind : ∃ j, st.find? (fun j2 => j2.id == i) = some j
    · obtain ⟨j, hj⟩ := hfind
      by_cases hst : j.status = fromS
      · exact ⟨j, hj, hst⟩
      · exfalso
        simp [transition, hj, hst] at hmut
    · have hnone : st.find? (fun j2 => j2.id == i) = none := by
        cases h : st.find? (fun j2 => j2.id == i) with
        | none => rfl
        | some j => exact absurd ⟨j, h⟩ hfind
      exfalso
      simp [transition, hnone] at hmut

/-- Witness for C5: the stored job is pending, so a transition expecting
`running` conflicts and the store is returned unchanged. -/
theorem transition_cas_witness :
    transition demoStore 1 JobStatus.running JobStatus.completed
      ⟨none, none⟩ = (false, demoStore) :=
  transition_cas.1 demoStore 1 JobStatus.running JobStatus.completed
    ⟨none, none⟩ (newJob 1 JobType.download_pdf 7 QueueName.default 3)
    (by rfl) (by decide)

/-- C6: `lease` scans the queues in the priority order summary before comic
before default: whenever a higher-priority queue is non-empty the returned
job is the head of the highest-priority non-empty queue, and a job is
returned from comic only when summary is empty, and from default only when
summary and comic are both empty. -/
theorem lease_priority :
    ∀ qs : QueueState,
      (∀ (i : Nat) (rest : List Nat), qs QueueName.summary = i :: rest →
        lease qs = some (QueueName.summary, i)) ∧
      (qs QueueName.summary = [] →
        ∀ (i : Nat) (rest : List Nat), qs QueueName.comic = i :: rest →
        lease qs = some (QueueName.comic, i)) ∧
      (qs QueueName.summary = [] → qs QueueName.comic = [] →
        ∀ (i : Nat) (rest : List Nat), qs QueueName.default = i :: rest →
        lease qs = some (QueueName.default, i)) ∧
      (∀ (q : QueueName) (i : Nat), lease qs = some (q, i) →
        (q = QueueName.comic → qs QueueName.summary = []) ∧
        (q = QueueName.default →
          qs QueueName.summary = [] ∧ qs QueueName.comic = [])) := by
  intro qs
  refine ⟨?_, ?_, ?_, ?_⟩
  · intro i rest h
    simp [lease, leaseScan, priorityOrder, h]
  · intro h0 i rest h
    simp [lease, leaseScan, priorityOrder, h0, h]
  · intro h0 h1 i rest h
    simp [lease, leaseScan, priorityOrder, h0, h1, h]
  · intro q i h
    constructor
    · intro hq
      subst hq
      cases hs : qs QueueName.summary with
      | nil => rfl
      | cons a t => simp [lease, leaseScan, priorityOrder, hs] at h
    · intro hq
      subst hq
      cases hs : qs QueueName.summary with
      | nil =>
        cases hc : qs QueueName.comic with
        | nil => exact ⟨rfl, rfl⟩
        | cons a t =>
          simp [lease, leaseScan, priorityOrder, hs, hc] at h
      | cons a t => simp [lease, leaseScan, priorityOrder, hs] at h

/-- Witness for C6: with summary empty and comic non-empty, `lease` drains
comic, not default. -/
theorem lease_priority_witness :
    lease demoQueues = some (QueueName.comic, 5) :=
  (lease_priority demoQueues).2.1 rfl 5 [] rfl

/-- Every projection value lies in the allowed set
{none, pending, running, completed, failed}. -/
theorem projectionValue_mem (s : Option JobStatus) :
    projectionValue s ∈ projectionAllowed := by
  cases s with
  | none => simp [projectionValue, projectionAllowed]
  | some v => cases v <;> simp [projectionValue, projectionAllowed]

/-- C7: every value of the Subject Status Projection fields
`summary_job_status` and `comic_job_status` exposed by the Status read API
lies in {none, pending, running, completed, failed}, and every projection
update keeps both fields inside this set. -/
theorem projection_status_closed :
    (∀ s : Option JobStatus, projectionValue s ∈ projectionAllowed) ∧
    (∀ (p : SubjectStatusProjection) (ty : JobType) (s : Option JobStatus),
      projectionOk p → projectionOk (updateProjection p ty s)) := by
  constructor
  · exact projectionValue_mem
  · intro p ty s hp
    cases ty with
    | download_pdf => exact hp
    | fetch_arxiv => exact hp
    | generate_summary => exact ⟨projectionValue_mem s, hp.2⟩
    | generate_comic => exact ⟨hp.1, projectionValue_mem s⟩

/-- Witness for C7: updating an empty projection with a dead summary job
keeps both fields in the allowed set. -/
theorem projection_status_closed_witness :
    projectionOk (updateProjection ⟨none, none⟩ JobType.generate_summary
      (some JobStatus.dead)) :=
  projection_status_closed.2 ⟨none, none⟩ JobType.generate_summary
    (some JobStatus.dead) (by constructor <;> simp [projectionAllowed])

/-- C8: when any number of scheduler replicas tick at the same scheduled
time bucket for the same recurring pipeline, exactly one replica acquires
the per-(pipeline_type, bucket) lock and enqueues the ingestion pipeline —
exactly one fetch_arxiv PipelineRun is created for the tick — and every
replica that observes the lock held changes nothing. -/
theorem scheduler_single_firing :
    (∀ (r : Nat) (rest : List Nat),
      runTick { lockHolder := none, runsCreated := 0 } (r :: rest) =
        { lockHolder := some r, runsCreated := 1 }) ∧
    (∀ (holder n : Nat) (replicas : List Nat),
      runTick { lockHolder := some holder, runsCreated := n } replicas =
        { lockHolder := some holder, runsCreated := n }) := by
  have hheld : ∀ (replicas : List Nat) (holder n : Nat),
      runTick { lockHolder := some holder, runsCreated := n } replicas =
        { lockHolder := some holder, runsCreated := n } := by
    intro replicas
    induction replicas with
    | nil => intro holder n; rfl
    | cons r t ih =>
      intro holder n
      show List.foldl tickReplica _ (r :: t) = _
      rw [List.foldl_cons]
      exact ih holder n
  constructor
  · intro r rest
    show List.foldl tickReplica _ (r :: rest) = _
    rw [List.foldl_cons]
    exact hheld rest r 1
  · intro holder n replicas
    exact hheld replicas holder n

/-- The folder-list edit of a favorite "add" is idempotent. -/
theorem toggleFolders_add_idem (folder : String) (l : List String) :
    toggleFolders FavAction.add folder
      (toggleFolders FavAction.add folder l) =
    toggleFolders FavAction.add folder l := by
  by_cases h : folder ∈ l
  · simp [toggleFolders, h]
  · simp [toggleFolders, h, List.mem_append]

/-- The per-card favorite "add" update is idempotent. -/
theorem favoriteCardUpdate_add_idem (paperId folder : String)
    (p : PaperCard) :
    favoriteCardUpdate paperId folder FavAction.add
      (favoriteCardUpdate paperId folder FavAction.add p) =
    favoriteCardUpdate paperId folder FavAction.add p := by
  by_cases hid : p.id = paperId
  · simp [favoriteCardUpdate, hid, toggleFolders_add_idem]
  · simp [favoriteCardUpdate, hid]

/-- C10: the optimistic cache update of `useToggleFavorite` for action
"add" is idempotent: applying it twice to any cached paper list yields the
same list as applying it once, because the folder is appended to
`favorite_folders` only when it is not already present. -/
theorem toggle_favorite_add_idempotent :
    ∀ (paperId folder : String) (old : Option PaperListResponse),
      toggleFavoriteUpdater paperId folder FavAction.add
        (toggleFavoriteUpdater paperId folder FavAction.add old) =
      toggleFavoriteUpdater paperId folder FavAction.add old := by
  intro paperId folder old
  cases old with
  | none => rfl
  | some r =>
    have hcomp :
        (favoriteCardUpdate paperId folder FavAction.add) ∘
          (favoriteCardUpdate paperId folder FavAction.add) =
        favoriteCardUpdate paperId folder FavAction.add :=
      funext fun p => favoriteCardUpdate_add_idem paperId folder p
    simp [toggleFavoriteUpdater, List.map_map, hcomp]

/-- A permanent failure rewrites the record to dead with the attempt
counted. -/
theorem handleFailure_permanent (j : JobRecord) (msg : String) :
    handleFailure j FailureKind.permanent msg =
      ({ j with
          status := JobStatus.dead, attempts := j.attempts + 1,
          lastFailed := true, last_error := some msg }, none) := rfl

/-- A transient failure that leaves the attempt count below the ceiling
rewrites the record to pending and re-enqueues on the same queue. -/
theorem handleFailure_transient_retry (j : JobRecord) (msg : String)
    (h : j.attempts + 1 < j.max_attempts) :
    handleFailure j FailureKind.transient msg =
      ({ j with
          status := JobStatus.pending, attempts := j.attempts + 1,
          lastFailed := true, last_error := some msg },
       some j.queue_name) := by
  simp [handleFailure, h]

/-- A transient failure that exhausts the ceiling rewrites the record to
dead. -/
theorem handleFailure_transient_dead (j : JobRecord) (msg : String)
    (h : ¬ j.attempts + 1 < j.max_attempts) :
    handleFailure j FailureKind.transient msg =
      ({ j with
          status := JobStatus.dead, attempts := j.attempts + 1,
          lastFailed := true, last_error := some msg }, none) := by
  simp [handleFailure, h]

/-- The invariant holds for a freshly enqueued job with a positive retry
ceiling. -/
theorem jobInv_init (i : Nat) (ty : JobType) (subj : Nat) (q : QueueName)
    (m : Nat) (h : 1 ≤ m) : JobInv (newJob i ty subj q m) := by
  refine ⟨h, Nat.zero_le _, fun _ => h, fun hf => ?_⟩
  simp [newJob] at hf

/-- The invariant is preserved by every lifecycle step. -/
theorem jobInv_step (j j' : JobRecord) (hinv : JobInv j)
    (hs : JobStep j j') : JobInv j' := by
  obtain ⟨h1, h2, h3, h4⟩ := hinv
  cases hs with
  | lease hp =>
    have hlt : j.attempts < j.max_attempts := h3 (by rw [hp]; rfl)
    exact ⟨h1, h2, fun _ => hlt, fun _ heq => absurd heq (Nat.ne_of_lt hlt)⟩
  | start hl =>
    have hlt : j.attempts < j.max_attempts := h3 (by rw [hl]; rfl)
    exact ⟨h1, h2, fun _ => hlt, fun _ heq => absurd heq (Nat.ne_of_lt hlt)⟩
  | succeed hr =>
    exact ⟨h1, h2,
      fun hnt => absurd hnt
        (show ¬ nonTerminalB JobStatus.completed = true by decide),
      fun hf _ => absurd hf (show ¬ false = true by decide)⟩
  | fail k msg hr =>
    have hlt : j.attempts < j.max_attempts := h3 (by rw [hr]; rfl)
    cases k with
    | permanent =>
      exact ⟨h1, hlt,
        fun hnt => absurd hnt
          (show ¬ nonTerminalB JobStatus.dead = true by decide),
        fun _ _ => rfl⟩
    | transient =>
      by_cases hlt2 : j.attempts + 1 < j.max_attempts
      · rw [congrArg Prod.fst (handleFailure_transient_retry j msg hlt2)]
        exact ⟨h1, Nat.le_of_lt hlt2, fun _ => hlt2,
          fun _ heq => absurd heq (Nat.ne_of_lt hlt2)⟩
      · rw [congrArg Prod.fst (handleFailure_transient_dead j msg hlt2)]
        exact ⟨h1, hlt,
          fun hnt => absurd hnt
            (show ¬ nonTerminalB JobStatus.dead = true by decide),
          fun _ _ => rfl⟩
  | expire hor =>
    have hnt : nonTerminalB j.status = true := by
      cases hor with
      | inl h => rw [h]; rfl
      | inr h => rw [h]; rfl
    have hlt : j.attempts < j.max_attempts := h3 hnt
    exact ⟨h1, h2, fun _ => hlt, fun _ heq => absurd heq (Nat.ne_of_lt hlt)⟩
  | retryJob hd =>
    exact ⟨h1, Nat.zero_le _, fun _ => h1,
      fun _ heq => absurd heq (Nat.ne_of_lt h1)⟩

/-- Every reachable job satisfies the invariant. -/
theorem jobInv_reachable (j : JobRecord) (h : ReachableJob j) : JobInv j := by
  induction h with
  | init i ty subj q m hm => exact jobInv_init i ty subj q m hm
  | step j j' hr hs ih => exact jobInv_step j j' ih hs

/-- C2: for every job in every reachable state, `attempts` never exceeds
`max_attempts`; and whenever `attempts` equals `max_attempts` and the most
recent execution attempt failed, the job's status is dead — in particular
never pending. -/
theorem attempts_never_exceed_max :
    ∀ j : JobRecord, ReachableJob j →
      j.attempts ≤ j.max_attempts ∧
      (j.lastFailed = true → j.attempts = j.max_attempts →
        j.status = JobStatus.dead) := by
  intro j h
  have hinv := jobInv_reachable j h
  exact ⟨hinv.2.1, hinv.2.2.2⟩

/-- Witness for C2: a job created with max_attempts 1, leased, started and
failed transiently is reachable; the theorem bounds its attempts and forces
its status to dead. -/
theorem attempts_never_exceed_max_witness :
    demoDeadJob.attempts ≤ demoDeadJob.max_attempts ∧
    (demoDeadJob.lastFailed = true →
      demoDeadJob.attempts = demoDeadJob.max_attempts →
      demoDeadJob.status = JobStatus.dead) :=
  attempts_never_exceed_max demoDeadJob
    (ReachableJob.step demoRunningJob demoDeadJob
      (ReachableJob.step demoLeasedJob demoRunningJob
        (ReachableJob.step (newJob 1 JobType.generate_summary 1
            QueueName.summary 1) demoLeasedJob
          (ReachableJob.init 1 JobType.generate_summary 1
            QueueName.summary 1 (by decide))
          (JobStep.lease _ rfl))
        (JobStep.start _ rfl))
      (JobStep.fail demoRunningJob FailureKind.transient ("net timeout")
        rfl))

/-- The source of every status lifecycle step is non-terminal. -/
theorem statusStep_src_nonTerminal (x y : JobStatus) (h : StatusStep x y) :
    nonTerminalB x = true := by
  cases h <;> rfl

/-- The source of a status lifecycle step is never `completed`. -/
theorem statusStep_src_ne_completed (x y : JobStatus) (h : StatusStep x y) :
    x ≠ JobStatus.completed := by
  cases h <;> decide

/-- The chain invariant holds at the trigger state. -/
theorem favChainInv_init : FavChainInv favInitial := by
  constructor
  · intro h
    rcases h with h | h <;> exact absurd rfl h
  · intro h
    exact absurd h (by decide)

/-- The chain invariant is preserved by every favorite-pipeline step. -/
theorem favChainInv_step (s s' : FavPipelineState) (hinv : FavChainInv s)
    (hs : FavStep s s') : FavChainInv s' := by
  obtain ⟨hA, hB⟩ := hinv
  cases hs with
  | dlAdvance y h hy =>
    have hdl : s.dl ≠ JobStatus.completed :=
      statusStep_src_ne_completed s.dl y h
    have hnone : s.summaryJob = none ∧ s.comicJob = none := by
      by_cases h1 : s.summaryJob = none
      · by_cases h2 : s.comicJob = none
        · exact ⟨h1, h2⟩
        · exact absurd (hA (Or.inr h2)) hdl
      · exact absurd (hA (Or.inl h1)) hdl
    refine ⟨fun h' => ?_, fun h' => absurd h' hy⟩
    rcases h' with h' | h'
    · exact absurd hnone.1 h'
    · exact absurd hnone.2 h'
  | dlComplete h =>
    exact ⟨fun _ => rfl, fun _ => ⟨Option.some_ne_none _, Option.some_ne_none _⟩⟩
  | sumAdvance x y hx h =>
    have hc : s.dl = JobStatus.completed :=
      hA (Or.inl (by rw [hx]; exact Option.some_ne_none x))
    exact ⟨fun _ => hc, fun _ => ⟨Option.some_ne_none y, (hB hc).2⟩⟩
  | comAdvance x y hx h =>
    have hc : s.dl = JobStatus.completed :=
      hA (Or.inr (by rw [hx]; exact Option.some_ne_none x))
    exact ⟨fun _ => hc, fun _ => ⟨(hB hc).1, Option.some_ne_none y⟩⟩

/-- The chain invariant holds in every reachable favorite-pipeline state. -/
theorem favChainInv_reachable (s : FavPipelineState) (h : FavReachable s) :
    FavChainInv s := by
  induction h with
  | init => exact favChainInv_init
  | step s s' hr hs ih => exact favChainInv_step s s' ih hs

/-- The download step of the favorite pipeline can run to completion and
then the summary branch can finish before the comic branch starts. -/
theorem favSummaryFirst_reachable : FavReachable favSummaryFirst := by
  have h0 : FavReachable favInitial := FavReachable.init
  have h1 : FavReachable
      { dl := JobStatus.leased, summaryJob := none, comicJob := none } :=
    FavReachable.step _ _ h0
      (FavStep.dlAdvance favInitial JobStatus.leased StatusStep.lease
        (by decide))
  have h2 : FavReachable
      { dl := JobStatus.running, summaryJob := none, comicJob := none } :=
    FavReachable.step _ _ h1
      (FavStep.dlAdvance _ JobStatus.running StatusStep.start (by decide))
  have h3 : FavReachable
      { dl := JobStatus.completed, summaryJob := some JobStatus.pending,
        comicJob := some JobStatus.pending } :=
    FavReachable.step _ _ h2 (FavStep.dlComplete _ rfl)
  have h4 : FavReachable
      { dl := JobStatus.completed, summaryJob := some JobStatus.leased,
        comicJob := some JobStatus.pending } :=
    FavReachable.step _ _ h3
      (FavStep.sumAdvance _ JobStatus.pending JobStatus.leased rfl
        StatusStep.lease)
  have h5 : FavReachable
      { dl := JobStatus.completed, summaryJob := some JobStatus.running,
        comicJob := some JobStatus.pending } :=
    FavReachable.step _ _ h4
      (FavStep.sumAdvance _ JobStatus.leased JobStatus.running rfl
        StatusStep.start)
  exact FavReachable.step _ _ h5
    (FavStep.sumAdvance _ JobStatus.running JobStatus.completed rfl
      StatusStep.complete)

/-- Symmetrically, the comic branch can finish before the summary branch
starts. -/
theorem favComicFirst_reachable : FavReachable favComicFirst := by
  have h0 : FavReachable favInitial := FavReachable.init
  have h1 : FavReachable
      { dl := JobStatus.leased, summaryJob := none, comicJob := none } :=
    FavReachable.step _ _ h0
      (FavStep.dlAdvance favInitial JobStatus.leased StatusStep.lease
        (by decide))
  have h2 : FavReachable
      { dl := JobStatus.running, summaryJob := none, comicJob := none } :=
    FavReachable.step _ _ h1
      (FavStep.dlAdvance _ JobStatus.running StatusStep.start (by decide))
  have h3 : FavReachable
      { dl := JobStatus.completed, summaryJob := some JobStatus.pending,
        comicJob := some JobStatus.pending } :=
    FavReachable.step _ _ h2 (FavStep.dlComplete _ rfl)
  have h4 : FavReachable
      { dl := JobStatus.completed, summaryJob := some JobStatus.pending,
        comicJob := some JobStatus.leased } :=
    FavReachable.step _ _ h3
      (FavStep.comAdvance _ JobStatus.pending JobStatus.leased rfl
        StatusStep.lease)
  have h5 : FavReachable
      { dl := JobStatus.completed, summaryJob := some JobStatus.pending,
        comicJob := some JobStatus.running } :=
    FavReachable.step _ _ h4
      (FavStep.comAdvance _ JobStatus.leased JobStatus.running rfl
        StatusStep.start)
  exact FavReachable.step _ _ h5
    (FavStep.comAdvance _ JobStatus.running JobStatus.completed rfl
      StatusStep.complete)

/-- C1: in the favorite pipeline
chain(download_pdf, group(generate_summary, generate_comic)), in every
reachable state no generate_summary or generate_comic JobRecord exists
before download_pdf has reached completed; once download_pdf completes both
are enqueued; and there is no ordering constraint between the two group
members — each can finish before the other has started. -/
theorem favorite_pipeline_chain_order :
    (∀ s : FavPipelineState, FavReachable s →
      ((s.summaryJob ≠ none ∨ s.comicJob ≠ none) →
        s.dl = JobStatus.completed) ∧
      (s.dl = JobStatus.completed →
        s.summaryJob ≠ none ∧ s.comicJob ≠ none)) ∧
    FavReachable favSummaryFirst ∧ FavReachable favComicFirst :=
  ⟨fun s h => favChainInv_reachable s h,
   favSummaryFirst_reachable, favComicFirst_reachable⟩

/-- Witness for C1: the invariant applied to the concrete reachable state in
which the summary branch finished while the comic branch is pending. -/
theorem favorite_pipeline_chain_order_witness :
    ((favSummaryFirst.summaryJob ≠ none ∨ favSummaryFirst.comicJob ≠ none) →
      favSummaryFirst.dl = JobStatus.completed) ∧
    (favSummaryFirst.dl = JobStatus.completed →
      favSummaryFirst.summaryJob ≠ none ∧ favSummaryFirst.comicJob ≠ none) :=
  favorite_pipeline_chain_order.1 favSummaryFirst
    favorite_pipeline_chain_order.2.1

/-- Replacing a list element by one that satisfies `p` only if the old one
did cannot increase the `countP`. -/
theorem countP_set_le {α : Type} (p : α → Bool) :
    ∀ (l : List α) (n : Nat) (x : α) (hn : n < l.length),
      (p x = true → p (l.get ⟨n, hn⟩) = true) →
      (l.set n x).countP p ≤ l.countP p := by
  intro l
  induction l with
  | nil =>
    intro n x hn _
    exact absurd hn (Nat.not_lt_zero n)
  | cons a t ih =>
    intro n x hn hp
    cases n with
    | zero =>
      show (x :: t).countP p ≤ (a :: t).countP p
      rw [List.countP_cons, List.countP_cons]
      by_cases hx : p x = true
      · have ha : p a = true := hp hx
        simp [hx, ha]
      · have hx' : p x = false := by
          cases hpx : p x with
          | false => rfl
          | true => exact absurd hpx hx
        simp [hx']
    | succ m =>
      have hn' : m < t.length := Nat.lt_of_succ_lt_succ hn
      have hp' : p x = true → p (t.get ⟨m, hn'⟩) = true := by
        intro hx
        have := hp hx
        simpa using this
      show (a :: t.set m x).countP p ≤ (a :: t).countP p
      rw [List.countP_cons, List.countP_cons]
      have := ih m x hn' hp'
      omega

/-- A trigger preserves the dedupe bound: either it is a no-op, or the pair
had no in-flight record and gets exactly one. -/
theorem dedupInv_trigger (st : List JobRecord)
    (hIH : ∀ (s : Nat) (t : JobType), inFlightCount st s t ≤ 1)
    (i subj : Nat) (ty : JobType) (q : QueueName) (m : Nat) :
    ∀ (s : Nat) (t : JobType),
      inFlightCount (triggerEnqueue st i subj ty q m) s t ≤ 1 := by
  intro s t
  unfold triggerEnqueue
  by_cases hg : hasInFlight st subj ty = true
  · rw [if_pos hg]
    exact hIH s t
  · rw [if_neg hg]
    unfold inFlightCount
    rw [List.countP_append]
    by_cases hpair : subj = s ∧ ty = t
    · obtain ⟨rfl, rfl⟩ := hpair
      have hz : st.countP (inFlightPred subj ty) = 0 := by
        rw [List.countP_eq_zero]
        intro a ha hpa
        exact hg (List.any_eq_true.mpr ⟨a, ha, hpa⟩)
      rw [hz]
      simp [List.countP_cons, inFlightPred, newJob, nonTerminalB]
    · have hnew : inFlightPred s t (newJob i ty subj q m) = false := by
        rw [Bool.eq_false_iff]
        intro htrue
        simp only [inFlightPred] at htrue
        obtain ⟨hab, hc⟩ := (Bool.and_eq_true _ _).mp htrue
        obtain ⟨ha, hb⟩ := (Bool.and_eq_true _ _).mp hab
        exact hpair ⟨beq_iff_eq.mp ha, beq_iff_eq.mp hb⟩
      have h0 : List.countP (inFlightPred s t) [newJob i ty subj q m] = 0 :=
        by simp [List.countP_cons, hnew]
      rw [h0]
      rw [Nat.add_zero]
      exact hIH s t

/-- A lifecycle advance of one record preserves the dedupe bound. -/
theorem dedupInv_advance (st : List JobRecord) (n : Nat)
    (hn : n < st.length) (j' : JobRecord)
    (hsub : j'.subject_id = (st.get ⟨n, hn⟩).subject_id)
    (hty : j'.job_type = (st.get ⟨n, hn⟩).job_type)
    (hs : StatusStep (st.get ⟨n, hn⟩).status j'.status)
    (hIH : ∀ (s : Nat) (t : JobType), inFlightCount st s t ≤ 1) :
    ∀ (s : Nat) (t : JobType), inFlightCount (st.set n j') s t ≤ 1 := by
  intro s t
  refine Nat.le_trans
    (countP_set_le (inFlightPred s t) st n j' hn ?_) (hIH s t)
  intro hpj
  simp only [inFlightPred] at hpj ⊢
  obtain ⟨hab, hc⟩ := (Bool.and_eq_true _ _).mp hpj
  obtain ⟨ha, hb⟩ := (Bool.and_eq_true _ _).mp hab
  refine (Bool.and_eq_true _ _).mpr ⟨(Bool.and_eq_true _ _).mpr ⟨?_, ?_⟩, ?_⟩
  · exact beq_iff_eq.mpr (by rw [← hsub]; exact beq_iff_eq.mp ha)
  · exact beq_iff_eq.mpr (by rw [← hty]; exact beq_iff_eq.mp hb)
  · exact statusStep_src_nonTerminal _ _ hs

/-- Every reachable job table satisfies the dedupe bound. -/
theorem dedupInv_reachable (st : List JobRecord) (h : SysReachable st) :
    ∀ (s : Nat) (t : JobType), inFlightCount st s t ≤ 1 := by
  induction h with
  | init =>
    intro s t
    simp [inFlightCount]
  | step st st' hr hs ih =>
    cases hs with
    | trigger i subj ty q m => exact dedupInv_trigger st ih i subj ty q m
    | advance n hn j' hsub hty hstep =>
      exact dedupInv_advance st n hn j' hsub hty hstep ih

/-- C3: in every reachable job table, at most one JobRecord per
(subject_id, job_type) pair has status in {pending, leased, running}; and a
second pipeline trigger for a subject whose job of that type is already
pending or running enqueues nothing — the Orchestrator is a no-op. -/
theorem dedupe_at_most_one_in_flight :
    (∀ st : List JobRecord, SysReachable st →
      ∀ (subj : Nat) (ty : JobType), inFlightCount st subj ty ≤ 1) ∧
    (∀ (st : List JobRecord) (i subj : Nat) (ty : JobType) (q : QueueName)
        (m : Nat) (j : JobRecord), j ∈ st → j.subject_id = subj →
      j.job_type = ty →
      (j.status = JobStatus.pending ∨ j.status = JobStatus.running) →
      triggerEnqueue st i subj ty q m = st) := by
  constructor
  · exact fun st h => dedupInv_reachable st h
  · intro st i subj ty q m j hj hsubj htyj hstat
    have hfl : hasInFlight st subj ty = true := by
      show st.any (inFlightPred subj ty) = true
      refine List.any_eq_true.mpr ⟨j, hj, ?_⟩
      simp only [inFlightPred]
      refine (Bool.and_eq_true _ _).mpr ⟨(Bool.and_eq_true _ _).mpr ⟨?_, ?_⟩, ?_⟩
      · exact beq_iff_eq.mpr hsubj
      · exact beq_iff_eq.mpr htyj
      · rcases hstat with h | h <;> rw [h] <;> rfl
    simp [triggerEnqueue, hfl]

/-- Witness for C3: the one-job table obtained by a first trigger satisfies
the bound, and a second trigger for the same pair is a no-op. -/
theorem dedupe_at_most_one_in_flight_witness :
    inFlightCount demoTable 7 JobType.download_pdf ≤ 1 ∧
    triggerEnqueue demoTable 2 7 JobType.download_pdf QueueName.default 3 =
      demoTable :=
  ⟨dedupe_at_most_one_in_flight.1 demoTable
      (SysReachable.step [] demoTable SysReachable.init
        (SysStep.trigger [] 1 7 JobType.download_pdf QueueName.default 3))
      7 JobType.download_pdf,
   dedupe_at_most_one_in_flight.2 demoTable 2 7 JobType.download_pdf
      QueueName.default 3
      (newJob 1 JobType.download_pdf 7 QueueName.default 3)
      (by decide) rfl rfl (Or.inl rfl)⟩

/-- Unfolding equation: restoring a snapshot entry folds one
`setQueryData`. -/
theorem restorePrev_cons (kv : QueryKey × Option PaperListResponse)
    (t : QueryCache) (c : QueryCache) :
    restorePreviousQueries (kv :: t) c =
      restorePreviousQueries t (setQueryData kv.1 kv.2 c) := rfl

/-- Unfolding equation of `setQueryData` on a cons cell. -/
theorem setQueryData_cons (k : QueryKey) (v : Option PaperListResponse)
    (x : QueryKey × Option PaperListResponse) (l : QueryCache) :
    setQueryData k v (x :: l) =
      (if x.1 = k then (x.1, v) else x) :: setQueryData k v l := rfl

/-- Unfolding equation of `setQueriesData` on a cons cell. -/
theorem setQueriesData_cons (P : QueryKey → Bool)
    (f : Option PaperListResponse → Option PaperListResponse)
    (x : QueryKey × Option PaperListResponse) (l : QueryCache) :
    setQueriesData P f (x :: l) =
      (if P x.1 then (x.1, f x.2) else x) :: setQueriesData P f l := rfl

/-- `setQueriesData` does not change the key set of the cache. -/
theorem cacheKeys_setQueriesData (P : QueryKey → Bool)
    (f : Option PaperListResponse → Option PaperListResponse)
    (c : QueryCache) : cacheKeys (setQueriesData P f c) = cacheKeys c := by
  induction c with
  | nil => rfl
  | cons e t ih =>
    rw [setQueriesData_cons]
    by_cases hP : P e.1 = true
    · rw [if_pos hP]
      show (e.1, f e.2).1 :: cacheKeys (setQueriesData P f t) =
        e.1 :: cacheKeys t
      rw [ih]
    · rw [if_neg hP]
      show e.1 :: cacheKeys (setQueriesData P f t) = e.1 :: cacheKeys t
      rw [ih]

/-- `setQueryData` for a key absent from the cache is a no-op. -/
theorem setQueryData_not_mem (k : QueryKey) (v : Option PaperListResponse)
    (c : QueryCache) (h : ¬ k ∈ cacheKeys c) : setQueryData k v c = c := by
  induction c with
  | nil => rfl
  | cons e t ih =>
    rw [show cacheKeys (e :: t) = e.1 :: cacheKeys t from rfl] at h
    have hne : ¬ e.1 = k :=
      fun he => h (List.mem_cons.mpr (Or.inl he.symm))
    have hmem : ¬ k ∈ cacheKeys t :=
      fun hm => h (List.mem_cons.mpr (Or.inr hm))
    rw [setQueryData_cons, if_neg hne, ih hmem]

/-- Restoring a snapshot that does not mention the head key leaves the head
untouched. -/
theorem restore_cons_notin (snap : QueryCache) :
    ∀ (x : QueryKey × Option PaperListResponse) (l : QueryCache),
      (∀ kv ∈ snap, kv.1 ≠ x.1) →
      restorePreviousQueries snap (x :: l) =
        x :: restorePreviousQueries snap l := by
  induction snap with
  | nil => intro x l _; rfl
  | cons kv t ih =>
    intro x l h
    rw [restorePrev_cons, restorePrev_cons, setQueryData_cons]
    have hx : ¬ x.1 = kv.1 :=
      fun he => (h kv (List.mem_cons_self _ _)) he.symm
    rw [if_neg hx]
    exact ih x (setQueryData kv.1 kv.2 l)
      (fun kv2 hkv2 => h kv2 (List.mem_cons.mpr (Or.inr hkv2)))

/-- A snapshot entry's key is a key of the snapshotted cache. -/
theorem snap_key_mem (P : QueryKey → Bool) (t : QueryCache)
    (kv : QueryKey × Option PaperListResponse)
    (hkv : kv ∈ getQueriesData P t) : kv.1 ∈ cacheKeys t := by
  have hkvt : kv ∈ t := (List.mem_filter.mp hkv).1
  exact List.mem_map.mpr ⟨kv, hkvt, rfl⟩

/-- Rolling back with the snapshot taken before an optimistic update
restores the cache exactly, for any updater, provided cache keys are
unique. -/
theorem rollback_restores (P : QueryKey → Bool)
    (f : Option PaperListResponse → Option PaperListResponse) :
    ∀ c : QueryCache, (cacheKeys c).Nodup →
      restorePreviousQueries (getQueriesData P c) (setQueriesData P f c) =
        c := by
  intro c
  induction c with
  | nil => intro _; rfl
  | cons e t ih =>
    intro hnd
    rw [show cacheKeys (e :: t) = e.1 :: cacheKeys t from rfl] at hnd
    have hnotin : ¬ e.1 ∈ cacheKeys t := (List.nodup_cons.mp hnd).1
    have hndt : (cacheKeys t).Nodup := (List.nodup_cons.mp hnd).2
    have hne : ∀ kv ∈ getQueriesData P t, kv.1 ≠ e.1 := by
      intro kv hkv heq
      exact hnotin (heq ▸ snap_key_mem P t kv hkv)
    rw [setQueriesData_cons]
    by_cases hP : P e.1 = true
    · have hsnap : getQueriesData P (e :: t) = e :: getQueriesData P t := by
        simp [getQueriesData, List.filter_cons, hP]
      rw [hsnap, if_pos hP, restorePrev_cons, setQueryData_cons,
        if_pos (show (e.1, f e.2).1 = e.1 from rfl),
        setQueryData_not_mem e.1 e.2 (setQueriesData P f t)
          (by rw [cacheKeys_setQueriesData]; exact hnotin)]
      have heta : (((e.1, f e.2).1 : QueryKey), e.2) = e := rfl
      rw [heta, restore_cons_notin (getQueriesData P t) e
        (setQueriesData P f t) hne, ih hndt]
    · have hsnap : getQueriesData P (e :: t) = getQueriesData P t := by
        simp [getQueriesData, List.filter_cons, hP]
      rw [hsnap, if_neg hP,
        restore_cons_notin (getQueriesData P t) e (setQueriesData P f t)
          hne, ih hndt]

/-- C9: if the server mutation issued by `useToggleFavorite` or
`useToggleDislike` fails, the `onError` handler restores every cached papers
query to the exact snapshot taken in `onMutate` before the optimistic
update, so after the error the query cache equals its pre-mutation state. -/
theorem toggle_mutation_rollback :
    ∀ (isPapers : QueryKey → Bool) (c : QueryCache)
      (paperId folder : String) (action : FavAction)
      (dact : DislikeAction),
      (cacheKeys c).Nodup →
      restorePreviousQueries (getQueriesData isPapers c)
        (setQueriesData isPapers
          (toggleFavoriteUpdater paperId folder action) c) = c ∧
      restorePreviousQueries (getQueriesData isPapers c)
        (setQueriesData isPapers (toggleDislikeUpdater paperId dact) c) =
        c := by
  intro isPapers c paperId folder action dact hnd
  exact ⟨rollback_restores isPapers _ c hnd,
    rollback_restores isPapers _ c hnd⟩

/-- Witness for C9: on a concrete two-entry cache with distinct keys, both
rollbacks restore the cache exactly. -/
theorem toggle_mutation_rollback_witness :
    restorePreviousQueries (getQueriesData demoIsPapers demoCache)
      (setQueriesData demoIsPapers
        (toggleFavoriteUpdater ("p1") ("ml") FavAction.add) demoCache) =
      demoCache ∧
    restorePreviousQueries (getQueriesData demoIsPapers demoCache)
      (setQueriesData demoIsPapers
        (toggleDislikeUpdater ("p1") DislikeAction.dislike) demoCache) =
      demoCache :=
  toggle_mutation_rollback demoIsPapers demoCache ("p1") ("ml")
    FavAction.add DislikeAction.dislike (by decide)
